import Mathlib

/-!
Verification of the WarpX particle-in-cell core against its natural-language
specification.  The development shallowly embeds the data model and the
operations of the repository: pure kernels become Lean functions over exact
rationals (the code computes in floating point; the spec's invariants are
stated in exact arithmetic), stateful code becomes explicit state passing,
and external collaborators (random-number engines, signed-distance
interpolation, Fourier transforms) become function parameters.
-/

namespace WarpX

/-- Three-component vector of rationals, modelling the (ux, uy, uz)
proper-velocity triplets and (Bx, By, Bz) field triplets that the particle
kernels manipulate componentwise. -/
structure Vec3 where
  x : ℚ
  y : ℚ
  z : ℚ
deriving DecidableEq, Repr

namespace Vec3

/-- Componentwise addition. -/
def add (a b : Vec3) : Vec3 := ⟨a.x + b.x, a.y + b.y, a.z + b.z⟩

/-- Componentwise subtraction. -/
def sub (a b : Vec3) : Vec3 := ⟨a.x - b.x, a.y - b.y, a.z - b.z⟩

/-- Scalar multiplication. -/
def smul (c : ℚ) (a : Vec3) : Vec3 := ⟨c * a.x, c * a.y, c * a.z⟩

/-- Dot product. -/
def dot (a b : Vec3) : ℚ := a.x * b.x + a.y * b.y + a.z * b.z

/-- Cross product, as computed componentwise by the particle pushers. -/
def cross (a b : Vec3) : Vec3 :=
  ⟨a.y * b.z - a.z * b.y, a.z * b.x - a.x * b.z, a.x * b.y - a.y * b.x⟩

/-- Squared Euclidean norm, the quantity `|u|^2` of the momentum-magnitude
invariant. -/
def norm2 (a : Vec3) : ℚ := a.x * a.x + a.y * a.y + a.z * a.z

/-- The zero vector. -/
def zero : Vec3 := ⟨0, 0, 0⟩

theorem norm2_nonneg (a : Vec3) : 0 ≤ a.norm2 := by
  have hx := mul_self_nonneg a.x
  have hy := mul_self_nonneg a.y
  have hz := mul_self_nonneg a.z
  unfold norm2
  linarith

end Vec3

/-! ### Particle pusher (spec §4.2, claim C1)

Modelled from the spec: the body of `PhysicalParticleContainer::PushPX`
(and the `UpdateMomentumBoris` kernel it calls) is not among the repository
files available here — only the declaration in `PhysicalParticleContainer.H`
is.  Following spec §4.2, the momentum update decomposes into a half
electric-field kick, a magnetic rotation (a Boris-type symmetric
implicit-in-rotation scheme), and a second half electric-field kick.  The
rotation vector `t` is built from the gathered magnetic field, the timestep
and the particle's Lorentz factor; since the momentum-magnitude invariant
holds for every rotation vector, the embedding takes the map from the
pre-rotation momentum to the rotation vector (`u ↦ (q·dt/(2·m·γ(u))) • B`
in the code) as an arbitrary function parameter `tf`, which in particular
covers every magnetic field `B` and every timestep `dt`. -/

/-- Boris magnetic rotation: given the rotation vector `t`, form
`u' = u + u × t` and `u⁺ = u + u' × s` with `s = (2 / (1 + |t|²)) t`. -/
def borisRotate (t u : Vec3) : Vec3 :=
  let uprime := u.add (u.cross t)
  let s := Vec3.smul (2 / (1 + t.norm2)) t
  u.add (uprime.cross s)

/-- One momentum update of the pusher: half electric kick by
`halfkick = (q·dt/(2m)) E`, Boris rotation with rotation vector `tf u⁻`,
half electric kick. -/
def pushMomentum (halfkick : Vec3) (tf : Vec3 → Vec3) (u : Vec3) : Vec3 :=
  let uminus := u.add halfkick
  let uplus := borisRotate (tf uminus) uminus
  uplus.add halfkick

theorem one_add_norm2_ne_zero (t : Vec3) : 1 + t.norm2 ≠ 0 := by
  have h := t.norm2_nonneg
  intro hc
  linarith

/-- The Boris rotation preserves the squared momentum magnitude, for every
rotation vector. -/
theorem borisRotate_norm2 (t u : Vec3) : (borisRotate t u).norm2 = u.norm2 := by
  have h : 1 + t.norm2 ≠ 0 := one_add_norm2_ne_zero t
  obtain ⟨tx, ty, tz⟩ := t
  obtain ⟨ux, uy, uz⟩ := u
  simp only [borisRotate, Vec3.add, Vec3.cross, Vec3.smul, Vec3.norm2] at h ⊢
  field_simp
  ring

end WarpX

/-- C1: with zero electric field the pusher's momentum update is a pure
magnetic rotation and leaves `|u|²` exactly unchanged, for every map from
momentum to rotation vector (hence for every `B` and `dt`), every initial
momentum, and any number of steps. -/
theorem C1_pushPX_pure_magnetic_preserves_norm2
    (E : WarpX.Vec3) (tf : WarpX.Vec3 → WarpX.Vec3) (u : WarpX.Vec3) (n : ℕ)
    (hE : E = WarpX.Vec3.zero) :
    WarpX.Vec3.norm2 ((WarpX.pushMomentum E tf)^[n] u) = WarpX.Vec3.norm2 u := by
  subst hE
  induction n with
  | zero => rfl
  | succ k ih =>
      rw [Function.iterate_succ_apply']
      rw [show ∀ v, WarpX.pushMomentum WarpX.Vec3.zero tf v
            = WarpX.borisRotate (tf (v.add WarpX.Vec3.zero)) (v.add WarpX.Vec3.zero)
          from ?_]
      · rw [WarpX.borisRotate_norm2]
        have hzero : ∀ v : WarpX.Vec3, v.add WarpX.Vec3.zero = v := by
          intro v; obtain ⟨a, b, c⟩ := v
          simp [WarpX.Vec3.add, WarpX.Vec3.zero]
        rw [hzero]
        exact ih
      · intro v
        obtain ⟨a, b, c⟩ := v
        simp [WarpX.pushMomentum, WarpX.Vec3.add, WarpX.Vec3.zero]

/-- Witness for C1 at a concrete input: three steps of the zero-field push
with the rotation vector fixed to `(0, 0, 1)` preserve `|u|²` of `(1, 2, 3)`. -/
theorem C1_pushPX_pure_magnetic_preserves_norm2_witness :
    WarpX.Vec3.norm2
        ((WarpX.pushMomentum WarpX.Vec3.zero (fun _ => ⟨0, 0, 1⟩))^[3] ⟨1, 2, 3⟩)
      = WarpX.Vec3.norm2 ⟨1, 2, 3⟩ :=
  C1_pushPX_pure_magnetic_preserves_norm2 WarpX.Vec3.zero (fun _ => ⟨0, 0, 1⟩)
    ⟨1, 2, 3⟩ 3 rfl

namespace WarpX

/-! ### Charge-conserving current deposition (spec §4.3, claim C2)

Modelled from the spec: the Esirkepov deposition kernel invoked through
`DepositCurrent` in `LaserParticleContainer::Evolve` is not among the
repository files available here — only its call sites are.  Following spec
§4.3, the charge-conserving scheme deposits each particle's charge through
the shape function at the old and new positions and deposits on each cell
face the exact flux crossing it during the step, so that the discrete
continuity equation holds between consecutive steps.  The embedding is the
one-dimensional, shape-order-1 instance, with positions measured in cell
units (the kernels convert to cell units on entry); the half-cell face
`i + 1/2` is indexed by the integer `i`. -/

/-- Symmetric order-1 B-spline (hat) shape factor. -/
def shapeFactor1 (xi : ℚ) : ℚ := max 0 (1 - |xi|)

/-- Charge density deposited on grid node `i` by a particle of charge `q`,
weight `w`, at position `x` (cell units): `q · w · S₁(x - i)`. -/
def depositRho (q w x : ℚ) (i : ℤ) : ℚ := q * w * shapeFactor1 (x - i)

/-- Cumulative shape profile: the fraction of the particle's shape cloud
deposited on grid nodes at or left of the cell face `i + 1/2`, for a
particle at `x`: zero on faces left of the occupied cell, the left-node
share `1 - (x - ⌊x⌋)` on the face right of node `⌊x⌋`, one past it. -/
def chargeLeftOf (x : ℚ) (i : ℤ) : ℚ :=
  if i < ⌊x⌋ then 0 else if i = ⌊x⌋ then 1 - (x - ⌊x⌋) else 1

/-- Current deposited on the cell face `i + 1/2` by a particle moving from
`x0` to `x1` during one step `dt`: the exact flux through that face, i.e.
the share of the particle's charge transported from the left of the face
to its right, `q · w · (chargeLeftOf x0 i - chargeLeftOf x1 i) / dt`.  A
trajectory crossing one or more cell boundaries deposits on every face it
sweeps — the per-face cell-crossing flux decomposition of the conserving
scheme. -/
def depositJ (q w x0 x1 dt : ℚ) (i : ℤ) : ℚ :=
  q * w * (chargeLeftOf x0 i - chargeLeftOf x1 i) / dt

theorem shapeFactor1_of_nonneg (xi : ℚ) (h0 : 0 ≤ xi) (h1 : xi < 1) :
    shapeFactor1 xi = 1 - xi := by
  unfold shapeFactor1
  rw [abs_of_nonneg h0]
  exact max_eq_right (by linarith)

theorem shapeFactor1_of_neg (xi : ℚ) (h0 : -1 ≤ xi) (h1 : xi < 0) :
    shapeFactor1 xi = 1 + xi := by
  unfold shapeFactor1
  rw [abs_of_neg h1]
  have : 1 - -xi = 1 + xi := by ring
  rw [this]
  exact max_eq_right (by linarith)

theorem shapeFactor1_of_far (xi : ℚ) (h : 1 ≤ |xi|) : shapeFactor1 xi = 0 := by
  unfold shapeFactor1
  exact max_eq_left (by linarith)


/-- Telescoping identity: the drop of the cumulative shape profile from
face `i + 1/2` to face `i - 1/2` is exactly the shape factor at node `i`. -/
theorem chargeLeftOf_diff (x : ℚ) (i : ℤ) :
    chargeLeftOf x i - chargeLeftOf x (i - 1) = shapeFactor1 (x - i) := by
  have hlo : ((⌊x⌋ : ℤ) : ℚ) ≤ x := Int.floor_le x
  have hhi : x < ((⌊x⌋ : ℤ) : ℚ) + 1 := Int.lt_floor_add_one x
  unfold chargeLeftOf
  generalize hgen : ⌊x⌋ = k at hlo hhi ⊢
  rcases lt_trichotomy i k with hik | hik | hik
  · -- face strictly left of the occupied cell: profile zero on both sides
    have hcast : (i : ℚ) + 1 ≤ (k : ℚ) := by exact_mod_cast Int.add_one_le_iff.mpr hik
    rw [if_pos hik, if_pos (by omega),
      shapeFactor1_of_far _ (by rw [abs_of_nonneg (by linarith)]; linarith)]
    ring
  · -- the face right of the occupied cell's left node
    subst hik
    rw [if_neg (by omega), if_pos rfl, if_pos (by omega),
      shapeFactor1_of_nonneg _ (by linarith) (by linarith)]
    ring
  · rcases eq_or_lt_of_le (Int.add_one_le_iff.mpr hik) with hik1 | hik1
    · -- the face right of the occupied cell's right node
      have hi : i = k + 1 := by omega
      subst hi
      have hcast : ((k + 1 : ℤ) : ℚ) = (k : ℚ) + 1 := by push_cast; ring
      rw [if_neg (by omega), if_neg (by omega),
        show k + 1 - 1 = k from by omega, if_neg (by omega), if_pos rfl, hcast,
        shapeFactor1_of_neg _ (by linarith) (by linarith)]
      ring
    · -- face strictly right of the occupied cell: profile one on both sides
      have hk2 : k + 2 ≤ i := by omega
      have hcast : (k : ℚ) + 2 ≤ (i : ℚ) := by exact_mod_cast hk2
      rw [if_neg (by omega), if_neg (by omega), if_neg (by omega), if_neg (by omega),
        shapeFactor1_of_far _ (by rw [abs_of_nonpos (by linarith)]; linarith)]
      ring

end WarpX

/-- C2: for every one-step trajectory from `x0` to `x1` — in particular
one crossing any number of cell boundaries; the grid is unbounded, so no
trajectory meets a domain boundary — the deposited charge and current
satisfy the discrete continuity equation at every grid node `i`:
`(ρ₁(i) - ρ₀(i))/dt + (J(i+1/2) - J(i-1/2)) = 0`. -/
theorem C2_deposition_discrete_continuity
    (q w x0 x1 dt : ℚ) (hdt : dt ≠ 0) :
    ∀ i : ℤ,
      (WarpX.depositRho q w x1 i - WarpX.depositRho q w x0 i) / dt
        + (WarpX.depositJ q w x0 x1 dt i - WarpX.depositJ q w x0 x1 dt (i - 1)) = 0 := by
  intro i
  have h0 := WarpX.chargeLeftOf_diff x0 i
  have h1 := WarpX.chargeLeftOf_diff x1 i
  simp only [WarpX.depositRho, WarpX.depositJ]
  rw [← h0, ← h1]
  field_simp
  ring

/-- Witness for C2 at a concrete input: charge 1, weight 2, a trajectory
from `1/2` to `3/2` crossing the cell boundary at node 1, `dt = 1`,
checked at node `1`. -/
theorem C2_deposition_discrete_continuity_witness :
    (WarpX.depositRho 1 2 (3/2) 1 - WarpX.depositRho 1 2 (1/2) 1) / 1
      + (WarpX.depositJ 1 2 (1/2) (3/2) 1 1 - WarpX.depositJ 1 2 (1/2) (3/2) 1 (1 - 1)) = 0 :=
  C2_deposition_discrete_continuity 1 2 (1/2) (3/2) 1 one_ne_zero 1

namespace WarpX

/-! ### Per-step phase ordering in LaserParticleContainer::Evolve (claim C3)

Embedding of the per-tile body of `LaserParticleContainer::Evolve`
(`Source/LaserParticleContainer.cpp`): the code copies the particle
positions out (`GetPosition`), deposits the old charge density into
component 0 of `rho` (when `rho` is requested), computes the laser-plane
coordinates and emitted amplitude from the copied (pre-push) positions,
pushes the particles (`update_laser_particle`, an external kernel, taken
here as a function parameter), deposits the current from the pushed state,
copies the positions back (`SetPosition`), and finally deposits the new
charge density into component 1.  The embedding tracks one representative
particle `(x, u)` and logs each phase together with the particle data it
reads. -/

/-- Observable phase events of one `LaserParticleContainer::Evolve` pass,
each carrying the particle data the phase reads. -/
inductive LaserEvolveEvent
  | depositChargeEvt (comp : ℕ) (x : ℚ)
  | gatherPlaneEvt (x : ℚ)
  | pushEvt (xold xnew : ℚ)
  | depositCurrentEvt (x u : ℚ)
deriving DecidableEq, Repr

/-- One `Evolve` pass over a representative laser particle at position `x`
with momentum `u`.  `pushF` is the external `update_laser_particle` kernel;
`doRho` mirrors the `if (rho)` guards.  Returns the updated particle and
the ordered event log. -/
def laserEvolve (pushF : ℚ → ℚ → ℚ × ℚ) (doRho : Bool) (x u : ℚ) :
    (ℚ × ℚ) × List LaserEvolveEvent :=
  let ev1 : List LaserEvolveEvent :=
    if doRho then [.depositChargeEvt 0 x] else []
  let ev2 : List LaserEvolveEvent := [.gatherPlaneEvt x]
  let pushed := pushF x u
  let ev3 : List LaserEvolveEvent := [.pushEvt x pushed.1]
  let ev4 : List LaserEvolveEvent := [.depositCurrentEvt pushed.1 pushed.2]
  let ev5 : List LaserEvolveEvent :=
    if doRho then [.depositChargeEvt 1 pushed.1] else []
  (pushed, ev1 ++ ev2 ++ ev3 ++ ev4 ++ ev5)

end WarpX

/-- C3: with charge deposition requested, one `Evolve` pass produces
exactly the event sequence: old charge density deposited into component 0
at the pre-push position, laser-plane gather reading the pre-push position,
the push, current deposition reading the post-push state, and new charge
density deposited into component 1 at the post-push position — so the
gather uses the pre-push position, the component-0 charge deposit precedes
the push, and the current and component-1 charge deposits follow it. -/
theorem C3_laser_evolve_gather_push_deposit_order
    (pushF : ℚ → ℚ → ℚ × ℚ) (x u : ℚ) :
    (WarpX.laserEvolve pushF true x u).2
      = [.depositChargeEvt 0 x,
         .gatherPlaneEvt x,
         .pushEvt x (pushF x u).1,
         .depositCurrentEvt (pushF x u).1 (pushF x u).2,
         .depositChargeEvt 1 (pushF x u).1] := by
  simp [WarpX.laserEvolve]

namespace WarpX

/-! ### PML damping-factor cache (spec §4.6, claim C4)

Modelled from the spec: the bodies of `MultiSigmaBox::ComputePMLFactorsB` /
`ComputePMLFactorsE` (in `PML.cpp`) and of
`PsatdAlgorithmJLinearInTime::InitializeSpectralCoefficients` are not among
the repository files available here — only their declarations are.  The
`MultiSigmaBox` declaration shows the cached timestep members
`dt_B = -1.e10` and `dt_E = -1.e10`.  Following spec §4.6's state machine
(`Ready → ComputeFactors(dt) → FactorsValid(dt)`, any dt change returning
to `Ready`) and §4.5 ("coefficients are precomputed once per (grid,
timestep) pair and reused; a timestep change invalidates and forces
recomputation"), a compute call with the cached timestep returns without
recomputing, and any other timestep recomputes and re-caches.  The factor
contents are abstracted by the function `factorFun` from the timestep to a
factor table of type `F`. -/

/-- Cache of damping factors: the timestep they were computed for and the
factor table itself (`none` before the first computation). -/
structure FactorCache (F : Type) where
  dt_B : ℚ
  factors : Option F
deriving Repr

/-- Freshly constructed cache: the sentinel timestep `-1.e10` from the
`MultiSigmaBox` member initializers, no factors yet. -/
def initFactorCache (F : Type) : FactorCache F :=
  { dt_B := -(10 ^ 10), factors := none }

/-- One `ComputePMLFactors(dt)` call: if `dt` equals the cached timestep
the call returns with the cache untouched, otherwise the factors are
recomputed for `dt` and the cache re-keyed. -/
def computePMLFactors {F : Type} (factorFun : ℚ → F) (dt : ℚ)
    (s : FactorCache F) : FactorCache F :=
  if dt = s.dt_B then s else { dt_B := dt, factors := some (factorFun dt) }

/-- Cache soundness: either untouched since construction, or holding
exactly the factors for the cached timestep. -/
def CacheSound {F : Type} (factorFun : ℚ → F) (s : FactorCache F) : Prop :=
  s.dt_B = -(10 ^ 10) ∨ s.factors = some (factorFun s.dt_B)

theorem computePMLFactors_cached {F : Type} (factorFun : ℚ → F)
    (dt : ℚ) (s : FactorCache F) (h : s.dt_B = dt) :
    computePMLFactors factorFun dt s = s := by
  unfold computePMLFactors
  rw [if_pos h.symm]

theorem computePMLFactors_sound {F : Type} (factorFun : ℚ → F)
    (dt : ℚ) (s : FactorCache F) (hs : CacheSound factorFun s) (hdt : 0 < dt) :
    (computePMLFactors factorFun dt s).dt_B = dt
      ∧ (computePMLFactors factorFun dt s).factors = some (factorFun dt)
      ∧ CacheSound factorFun (computePMLFactors factorFun dt s) := by
  unfold computePMLFactors
  by_cases hc : dt = s.dt_B
  · rw [if_pos hc]
    rcases hs with hinit | hval
    · exfalso
      rw [hinit] at hc
      have : (0 : ℚ) < -(10 ^ 10) := hc ▸ hdt
      norm_num at this
    · exact ⟨hc.symm, by rw [hval, ← hc], Or.inr hval⟩
  · rw [if_neg hc]
    exact ⟨rfl, rfl, Or.inr rfl⟩

end WarpX

/-- C4: from any sound cache state and any positive timestep `dt`, a
`ComputePMLFactors(dt)` call leaves the cache keyed to `dt` holding exactly
the factors computed for `dt`; a further call with the same `dt` returns
the cache unchanged (pure reuse); and a call with any other positive
timestep `dt2` recomputes, ending keyed to `dt2` with the factors for
`dt2`. -/
theorem C4_pml_factor_cache_valid_per_dt {F : Type} (factorFun : ℚ → F)
    (dt : ℚ) (s : WarpX.FactorCache F)
    (hs : WarpX.CacheSound factorFun s) (hdt : 0 < dt) :
    ((WarpX.computePMLFactors factorFun dt s).dt_B = dt
        ∧ (WarpX.computePMLFactors factorFun dt s).factors = some (factorFun dt))
      ∧ WarpX.computePMLFactors factorFun dt (WarpX.computePMLFactors factorFun dt s)
          = WarpX.computePMLFactors factorFun dt s
      ∧ ∀ dt2 : ℚ, 0 < dt2 →
          (WarpX.computePMLFactors factorFun dt2
              (WarpX.computePMLFactors factorFun dt s)).dt_B = dt2
            ∧ (WarpX.computePMLFactors factorFun dt2
                (WarpX.computePMLFactors factorFun dt s)).factors
                = some (factorFun dt2) := by
  obtain ⟨hkey, hfac, hsound⟩ :=
    WarpX.computePMLFactors_sound factorFun dt s hs hdt
  refine ⟨⟨hkey, hfac⟩, ?_, ?_⟩
  · exact WarpX.computePMLFactors_cached factorFun dt _ hkey
  · intro dt2 hdt2
    obtain ⟨hkey2, hfac2, _⟩ :=
      WarpX.computePMLFactors_sound factorFun dt2
        (WarpX.computePMLFactors factorFun dt s) hsound hdt2
    exact ⟨hkey2, hfac2⟩

/-- Witness for C4: the freshly constructed cache (sentinel timestep,
factors abstracted by the identity table) updated with `dt = 1`, then
re-queried at `dt = 1` and at `dt = 2`. -/
theorem C4_pml_factor_cache_valid_per_dt_witness :
    ((WarpX.computePMLFactors id 1 (WarpX.initFactorCache ℚ)).dt_B = 1
        ∧ (WarpX.computePMLFactors id 1 (WarpX.initFactorCache ℚ)).factors = some (id 1))
      ∧ WarpX.computePMLFactors id 1 (WarpX.computePMLFactors id 1 (WarpX.initFactorCache ℚ))
          = WarpX.computePMLFactors id 1 (WarpX.initFactorCache ℚ)
      ∧ ∀ dt2 : ℚ, 0 < dt2 →
          (WarpX.computePMLFactors id dt2
              (WarpX.computePMLFactors id 1 (WarpX.initFactorCache ℚ))).dt_B = dt2
            ∧ (WarpX.computePMLFactors id dt2
                (WarpX.computePMLFactors id 1 (WarpX.initFactorCache ℚ))).factors
                = some (id dt2) :=
  C4_pml_factor_cache_valid_per_dt id 1 (WarpX.initFactorCache ℚ)
    (Or.inl rfl) (by norm_num)

namespace WarpX

/-! ### PML field update at zero damping (spec §4.6, claim C5)

Modelled from the spec: the PML field-update kernels and the
`SigmaBox::ComputePMLFactorsB/E` bodies are not among the repository files
available here — `PML.H` declares only the sigma profiles and factor
arrays.  Following spec §4.4 and §4.6, the ordinary update is the
staggered Yee leapfrog (here its one-dimensional, source-free `(Ey, Bz)`
instance, with `alpha = c²·dt/dx` and `beta = dt/dx` the time-update
coefficients), and the PML update is the same kernel with damping factors,
functions of the local damping coefficient `sigma`, multiplying the
time-update coefficients — factors chosen so that at `sigma = 0` they
reduce to `1` and to the ordinary coefficient respectively (in the code,
`exp(-sigma·dt)` and its source companion). -/

/-- Ordinary Yee update of E from the curl of B (1-D, source-free):
`E'(i) = E(i) + alpha · (B(i) - B(i-1))`. -/
def yeeUpdateE (alpha : ℚ) (Ef Bf : ℤ → ℚ) : ℤ → ℚ :=
  fun i => Ef i + alpha * (Bf i - Bf (i - 1))

/-- Ordinary Yee update of B from the curl of the updated E:
`B'(i) = B(i) + beta · (E'(i+1) - E'(i))`. -/
def yeeUpdateB (beta : ℚ) (Ef Bf : ℤ → ℚ) : ℤ → ℚ :=
  fun i => Bf i + beta * (Ef (i + 1) - Ef i)

/-- One ordinary field-update step: E from curl B, then B from the curl of
the new E (staggered leapfrog). -/
def yeeStep (alpha beta : ℚ) (Ef Bf : ℤ → ℚ) : (ℤ → ℚ) × (ℤ → ℚ) :=
  let Enew := yeeUpdateE alpha Ef Bf
  (Enew, yeeUpdateB beta Enew Bf)

/-- PML update of E: the Yee kernel with the damping factor `dampE sigma`
multiplying the old field and `srcE sigma` replacing the coefficient of the
curl term. -/
def pmlUpdateE (dampE srcE : ℚ → ℚ) (sigma : ℤ → ℚ) (Ef Bf : ℤ → ℚ) : ℤ → ℚ :=
  fun i => dampE (sigma i) * Ef i + srcE (sigma i) * (Bf i - Bf (i - 1))

/-- PML update of B: the Yee kernel with the damping factor `dampB sigmaStar`
multiplying the old field and `srcB sigmaStar` replacing the coefficient of
the curl term. -/
def pmlUpdateB (dampB srcB : ℚ → ℚ) (sigmaStar : ℤ → ℚ) (Ef Bf : ℤ → ℚ) : ℤ → ℚ :=
  fun i => dampB (sigmaStar i) * Bf i + srcB (sigmaStar i) * (Ef (i + 1) - Ef i)

/-- One PML field-update step, the same phase order as `yeeStep`. -/
def pmlStep (dampE srcE dampB srcB : ℚ → ℚ) (sigma sigmaStar : ℤ → ℚ)
    (Ef Bf : ℤ → ℚ) : (ℤ → ℚ) × (ℤ → ℚ) :=
  let Enew := pmlUpdateE dampE srcE sigma Ef Bf
  (Enew, pmlUpdateB dampB srcB sigmaStar Enew Bf)

end WarpX

/-- C5: if the damping factors reduce at zero damping to the ordinary
time-update coefficients (`dampE 0 = 1`, `srcE 0 = alpha`, `dampB 0 = 1`,
`srcB 0 = beta`) and the damping coefficients are zero everywhere in the
shell, then one PML field-update step produces exactly the same E and B
fields as one ordinary field-update step, on every grid node. -/
theorem C5_pml_zero_damping_equals_ordinary_update
    (alpha beta : ℚ) (dampE srcE dampB srcB : ℚ → ℚ) (sigma sigmaStar : ℤ → ℚ)
    (Ef Bf : ℤ → ℚ)
    (hdE : dampE 0 = 1) (hsE : srcE 0 = alpha)
    (hdB : dampB 0 = 1) (hsB : srcB 0 = beta)
    (hsig : ∀ i, sigma i = 0) (hsigs : ∀ i, sigmaStar i = 0) :
    ∀ i : ℤ,
      (WarpX.pmlStep dampE srcE dampB srcB sigma sigmaStar Ef Bf).1 i
          = (WarpX.yeeStep alpha beta Ef Bf).1 i
        ∧ (WarpX.pmlStep dampE srcE dampB srcB sigma sigmaStar Ef Bf).2 i
          = (WarpX.yeeStep alpha beta Ef Bf).2 i := by
  have hE : ∀ i : ℤ,
      WarpX.pmlUpdateE dampE srcE sigma Ef Bf i = WarpX.yeeUpdateE alpha Ef Bf i := by
    intro i
    simp only [WarpX.pmlUpdateE, WarpX.yeeUpdateE, hsig i, hdE, hsE]
    ring
  intro i
  constructor
  · exact hE i
  · simp only [WarpX.pmlStep, WarpX.yeeStep, WarpX.pmlUpdateB, WarpX.yeeUpdateB,
      hsigs i, hdB, hsB, hE]
    ring

/-- Witness for C5: concrete damping factors `1 - sigma` and
`coefficient - sigma` (which equal `1` and the coefficient at zero
damping), zero sigma profiles, and the fields `E(i) = i`, `B(i) = i²`,
compared at node `5`. -/
theorem C5_pml_zero_damping_equals_ordinary_update_witness :
    (WarpX.pmlStep (fun s => 1 - s) (fun s => 2 - s) (fun s => 1 - s) (fun s => 3 - s)
          (fun _ => 0) (fun _ => 0) (fun i => (i : ℚ)) (fun i => (i : ℚ) ^ 2)).1 5
        = (WarpX.yeeStep 2 3 (fun i => (i : ℚ)) (fun i => (i : ℚ) ^ 2)).1 5
      ∧ (WarpX.pmlStep (fun s => 1 - s) (fun s => 2 - s) (fun s => 1 - s) (fun s => 3 - s)
          (fun _ => 0) (fun _ => 0) (fun i => (i : ℚ)) (fun i => (i : ℚ) ^ 2)).2 5
        = (WarpX.yeeStep 2 3 (fun i => (i : ℚ)) (fun i => (i : ℚ) ^ 2)).2 5 :=
  C5_pml_zero_damping_equals_ordinary_update 2 3
    (fun s => 1 - s) (fun s => 2 - s) (fun s => 1 - s) (fun s => 3 - s)
    (fun _ => 0) (fun _ => 0) (fun i => (i : ℚ)) (fun i => (i : ℚ) ^ 2)
    (by norm_num) (by norm_num) (by norm_num) (by norm_num)
    (fun _ => rfl) (fun _ => rfl) 5

namespace WarpX

/-! ### Embedded-boundary particle scraping (claims C6, C10)

Embedding of `scrapeParticlesAtEB` (`Source/EmbeddedBoundary/ParticleScraper.H`)
and `ParticleBoundaryProcess::Absorb`
(`Source/EmbeddedBoundary/ParticleBoundaryProcess.H`).  A particle tile is a
map from particle index to the stored components (validity flag, position,
momentum, weight); the signed-distance interpolation
(`ablastr::particles::interp_field_nodal`) and the boundary-normal
computation are external collaborators, taken as function parameters on
the particle position.  The per-particle kernel body of
`scrapeParticlesAtEB` first skips particles already flagged for removal,
then reads the position, evaluates the signed distance, and invokes the
boundary-interaction callback only where the distance is negative. -/

/-- Stored components of one macroparticle. -/
structure Particle where
  valid : Bool
  posx : ℚ
  posy : ℚ
  posz : ℚ
  ux : ℚ
  uy : ℚ
  uz : ℚ
  weight : ℚ
deriving DecidableEq, Repr

/-- A particle tile: particle index to stored components. -/
def Tile : Type := ℕ → Particle

/-- Position triple of a particle. -/
def Particle.pos (p : Particle) : ℚ × ℚ × ℚ := (p.posx, p.posy, p.posz)

/-- A boundary-interaction callback: receives the tile, the particle
index, the collision position and the boundary normal, and returns the
updated tile (`ParticleScraper.H`'s callable `f`; the random engine of the
code is not consumed by the callbacks modelled here). -/
def BoundaryCallback : Type := Tile → ℕ → (ℚ × ℚ × ℚ) → (ℚ × ℚ × ℚ) → Tile

/-- `ParticleBoundaryProcess::Absorb`: invalidate the id of particle `i`
(`make_invalid`), touching nothing else. -/
def absorbParticle (tile : Tile) (i : ℕ) : Tile :=
  fun j => if j = i then { tile j with valid := false } else tile j

/-- The `Absorb` boundary process as a callback: position and normal are
ignored, the particle id is invalidated. -/
def absorbCallback : BoundaryCallback :=
  fun tile i _ _ => absorbParticle tile i

/-- Per-particle kernel body of `scrapeParticlesAtEB`: skip the particle
if its id is already invalidated; otherwise read its position, evaluate
the signed distance `phiAt` there, and where it is negative invoke the
callback with the position and the boundary normal `normalAt`.  Returns
the updated tile and whether the callback was invoked. -/
def scrapeOne (phiAt : ℚ × ℚ × ℚ → ℚ) (normalAt : ℚ × ℚ × ℚ → ℚ × ℚ × ℚ)
    (f : BoundaryCallback) (tile : Tile) (ip : ℕ) : Tile × Bool :=
  if (tile ip).valid = false then (tile, false)
  else
    let pos := (tile ip).pos
    let phiValue := phiAt pos
    if phiValue < 0 then (f tile ip pos (normalAt pos), true)
    else (tile, false)

end WarpX

/-- C6: during `scrapeParticlesAtEB`, a particle whose id is already
invalidated is skipped — the tile is returned unchanged and the
boundary-interaction callback is not invoked, for every callback — while a
valid particle inside the boundary (negative signed distance) processed
with the `Absorb` callback ends with its id invalidated. -/
theorem C6_scraper_skips_invalid_absorbs_valid
    (phiAt : ℚ × ℚ × ℚ → ℚ) (normalAt : ℚ × ℚ × ℚ → ℚ × ℚ × ℚ)
    (tile : WarpX.Tile) (ip : ℕ) :
    (∀ f : WarpX.BoundaryCallback, (tile ip).valid = false →
        WarpX.scrapeOne phiAt normalAt f tile ip = (tile, false))
      ∧ ((tile ip).valid = true → phiAt (tile ip).pos < 0 →
          WarpX.scrapeOne phiAt normalAt WarpX.absorbCallback tile ip
              = (WarpX.absorbParticle tile ip, true)
            ∧ ((WarpX.scrapeOne phiAt normalAt WarpX.absorbCallback tile ip).1 ip).valid
              = false) := by
  constructor
  · intro f hinvalid
    unfold WarpX.scrapeOne
    rw [if_pos hinvalid]
  · intro hvalid hphi
    have hnot : ¬ (tile ip).valid = false := by
      rw [hvalid]; simp
    have hres : WarpX.scrapeOne phiAt normalAt WarpX.absorbCallback tile ip
        = (WarpX.absorbParticle tile ip, true) := by
      unfold WarpX.scrapeOne
      rw [if_neg hnot]
      simp only [if_pos hphi]
      rfl
    refine ⟨hres, ?_⟩
    rw [hres]
    unfold WarpX.absorbParticle
    simp

/-- Witness for C6: a two-particle tile whose particle 0 is already
invalidated and whose particle 1 is valid at a position of signed distance
`-1`: particle 0 is skipped by an arbitrary concrete callback, particle 1
is absorbed. -/
theorem C6_scraper_skips_invalid_absorbs_valid_witness :
    (WarpX.scrapeOne (fun _ => -1) (fun _ => (1, 0, 0)) WarpX.absorbCallback
        (fun j => if j = 0 then ⟨false, 0, 0, 0, 0, 0, 0, 1⟩ else ⟨true, 2, 3, 4, 0, 0, 0, 1⟩) 0
      = ((fun j => if j = 0 then ⟨false, 0, 0, 0, 0, 0, 0, 1⟩ else ⟨true, 2, 3, 4, 0, 0, 0, 1⟩),
          false))
    ∧ (WarpX.scrapeOne (fun _ => -1) (fun _ => (1, 0, 0)) WarpX.absorbCallback
          (fun j => if j = 0 then ⟨false, 0, 0, 0, 0, 0, 0, 1⟩ else ⟨true, 2, 3, 4, 0, 0, 0, 1⟩) 1
        = (WarpX.absorbParticle
            (fun j => if j = 0 then ⟨false, 0, 0, 0, 0, 0, 0, 1⟩ else ⟨true, 2, 3, 4, 0, 0, 0, 1⟩) 1,
            true)) := by
  constructor
  · exact (C6_scraper_skips_invalid_absorbs_valid (fun _ => -1) (fun _ => (1, 0, 0))
      (fun j => if j = 0 then ⟨false, 0, 0, 0, 0, 0, 0, 1⟩ else ⟨true, 2, 3, 4, 0, 0, 0, 1⟩) 0).1
      WarpX.absorbCallback rfl
  · exact ((C6_scraper_skips_invalid_absorbs_valid (fun _ => -1) (fun _ => (1, 0, 0))
      (fun j => if j = 0 then ⟨false, 0, 0, 0, 0, 0, 0, 1⟩ else ⟨true, 2, 3, 4, 0, 0, 0, 1⟩) 1).2
      rfl (by norm_num)).1

/-- C10: `ParticleBoundaryProcess::Absorb` applied to particle `i`
invalidates that particle's id and modifies nothing else: the particle's
position, momentum and weight components are unchanged, and every other
particle of the tile is unchanged. -/
theorem C10_absorb_only_invalidates_id (tile : WarpX.Tile) (i : ℕ) :
    ((WarpX.absorbParticle tile i) i).valid = false
      ∧ ((WarpX.absorbParticle tile i) i).posx = (tile i).posx
      ∧ ((WarpX.absorbParticle tile i) i).posy = (tile i).posy
      ∧ ((WarpX.absorbParticle tile i) i).posz = (tile i).posz
      ∧ ((WarpX.absorbParticle tile i) i).ux = (tile i).ux
      ∧ ((WarpX.absorbParticle tile i) i).uy = (tile i).uy
      ∧ ((WarpX.absorbParticle tile i) i).uz = (tile i).uz
      ∧ ((WarpX.absorbParticle tile i) i).weight = (tile i).weight
      ∧ ∀ j : ℕ, j ≠ i → WarpX.absorbParticle tile i j = tile j := by
  unfold WarpX.absorbParticle
  refine ⟨by simp, by simp, by simp, by simp, by simp, by simp, by simp, by simp, ?_⟩
  intro j hj
  simp [hj]

/-- Witness for C10: absorbing particle 0 of a concrete two-particle tile
leaves particle 1 untouched. -/
theorem C10_absorb_only_invalidates_id_witness :
    WarpX.absorbParticle
        (fun j => if j = 0 then ⟨true, 1, 2, 3, 4, 5, 6, 7⟩ else ⟨true, 8, 9, 10, 11, 12, 13, 14⟩) 0 1
      = (fun j => if j = 0 then ⟨true, 1, 2, 3, 4, 5, 6, 7⟩
          else (⟨true, 8, 9, 10, 11, 12, 13, 14⟩ : WarpX.Particle)) 1 :=
  ((C10_absorb_only_invalidates_id
      (fun j => if j = 0 then ⟨true, 1, 2, 3, 4, 5, 6, 7⟩ else ⟨true, 8, 9, 10, 11, 12, 13, 14⟩)
      0).2.2.2.2.2.2.2.2) 1 one_ne_zero

namespace WarpX

/-! ### Field gather with B-spline shape factors (spec §4.1, §8, claim C7)

Modelled from the spec: the body of `doGatherShapeN` (FieldGather.H) is
not among the repository files available here — only its call sites in
`QEDPairGeneration.H` and the photon-emission functor are.  Following spec
§4.1, the gather interpolates a grid field to a continuous particle
position with a symmetric B-spline shape function of configurable order
(1–3), tensor-multiplied per axis for the multi-dimensional variants, the
cylindrical variant carrying additional azimuthal modes whose angular
basis values are supplied externally.  Positions are in cell units (the
kernel rescales on entry); staggered components shift the position by half
a cell before the same stencil computation, so universal quantification
over the position covers all staggerings. -/

/-- Supported shape-function orders. -/
inductive ShapeOrder
  | one
  | two
  | three
deriving DecidableEq, Repr

/-- Per-axis shape stencil: the grid indices in the shape-function support
and the B-spline weight each receives, for a particle at `x` (cell units). -/
def shapeStencil (o : ShapeOrder) (x : ℚ) : List (ℤ × ℚ) :=
  match o with
  | .one =>
      let j := ⌊x⌋
      let xint := x - j
      [(j, 1 - xint), (j + 1, xint)]
  | .two =>
      let j := ⌊x + 1/2⌋
      let xint := x - j
      [(j - 1, (1/2) * (1/2 - xint) ^ 2),
       (j, 3/4 - xint ^ 2),
       (j + 1, (1/2) * (1/2 + xint) ^ 2)]
  | .three =>
      let j := ⌊x⌋
      let xint := x - j
      [(j - 1, (1 - xint) ^ 3 / 6),
       (j, (4 - 6 * xint ^ 2 + 3 * xint ^ 3) / 6),
       (j + 1, (1 + 3 * xint + 3 * xint ^ 2 - 3 * xint ^ 3) / 6),
       (j + 2, xint ^ 3 / 6)]

/-- One-dimensional gather: weighted sum of the field over the stencil. -/
def gather1D (o : ShapeOrder) (F : ℤ → ℚ) (x : ℚ) : ℚ :=
  ((shapeStencil o x).map (fun p => p.2 * F p.1)).sum

/-- Two-dimensional gather: tensor product of the per-axis stencils. -/
def gather2D (ox oz : ShapeOrder) (F : ℤ → ℤ → ℚ) (x z : ℚ) : ℚ :=
  gather1D ox (fun i => gather1D oz (fun k => F i k) z) x

/-- Three-dimensional gather: tensor product of the per-axis stencils. -/
def gather3D (ox oy oz : ShapeOrder) (F : ℤ → ℤ → ℤ → ℚ) (x y z : ℚ) : ℚ :=
  gather1D ox (fun i => gather1D oy (fun j => gather1D oz (fun k => F i j k) z) y) x

/-- Cylindrical gather with `M` azimuthal modes beyond the fundamental:
the `(r, z)` gather of the mode-0 field plus, for each higher mode, the
`(r, z)` gathers of its real and imaginary parts weighted by the angular
basis values `cosv m = cos(m·θ)` and `sinv m = sin(m·θ)` supplied by the
caller. -/
def gatherRZ (orr oz : ShapeOrder) (M : ℕ) (F0 : ℤ → ℤ → ℚ)
    (Fre Fim : ℕ → ℤ → ℤ → ℚ) (cosv sinv : ℕ → ℚ) (r z : ℚ) : ℚ :=
  gather2D orr oz F0 r z
    + (Finset.range M).sum (fun m =>
        gather2D orr oz (Fre (m + 1)) r z * cosv (m + 1)
          + gather2D orr oz (Fim (m + 1)) r z * sinv (m + 1))

theorem gather1D_const (o : ShapeOrder) (c x : ℚ) :
    gather1D o (fun _ => c) x = c := by
  cases o
  all_goals
    simp only [gather1D, shapeStencil, List.map, List.sum_cons, List.sum_nil]
    ring

theorem gather2D_const (ox oz : ShapeOrder) (c x z : ℚ) :
    gather2D ox oz (fun _ _ => c) x z = c := by
  unfold gather2D
  simp only [gather1D_const]

theorem gather3D_const (ox oy oz : ShapeOrder) (c x y z : ℚ) :
    gather3D ox oy oz (fun _ _ _ => c) x y z = c := by
  unfold gather3D
  simp only [gather1D_const]

end WarpX

/-- C7: gathering a spatially constant field returns exactly that
constant at every particle position, for every supported shape order on
each axis and for each dimensionality — 1D, 2D, 3D, and cylindrical with
any number of azimuthal modes (a constant field has mode 0 identically
equal to the constant and all higher modes zero), for any angular basis
values. -/
theorem C7_gather_constant_field_roundtrip
    (ox oy oz : WarpX.ShapeOrder) (c x y z : ℚ)
    (M : ℕ) (cosv sinv : ℕ → ℚ) :
    WarpX.gather1D ox (fun _ => c) x = c
      ∧ WarpX.gather2D ox oz (fun _ _ => c) x z = c
      ∧ WarpX.gather3D ox oy oz (fun _ _ _ => c) x y z = c
      ∧ WarpX.gatherRZ ox oz M (fun _ _ => c) (fun _ _ _ => 0) (fun _ _ _ => 0)
          cosv sinv x z = c := by
  refine ⟨WarpX.gather1D_const ox c x, WarpX.gather2D_const ox oz c x z,
    WarpX.gather3D_const ox oy oz c x y z, ?_⟩
  unfold WarpX.gatherRZ
  rw [WarpX.gather2D_const]
  have hzero : ∀ m : ℕ, m ∈ Finset.range M →
      WarpX.gather2D ox oz ((fun _ _ _ => (0 : ℚ)) (m + 1)) x z * cosv (m + 1)
        + WarpX.gather2D ox oz ((fun _ _ _ => (0 : ℚ)) (m + 1)) x z * sinv (m + 1) = 0 := by
    intro m _
    rw [show ((fun _ _ _ => (0 : ℚ)) (m + 1)) = (fun _ _ => (0 : ℚ)) from rfl,
      WarpX.gather2D_const]
    ring
  rw [Finset.sum_congr rfl hzero]
  simp

namespace WarpX

/-! ### DSMC split-and-scatter (claims C8, C9)

Embedding of the masked-pair branch of `SplitAndScatterFunc::operator()`
(`Source/Particles/Collision/BinaryCollision/DSMC/SplitAndScatterFunc.H`).
The split stage (code lines up to the momentum scatter) copies each
colliding parent into a product particle, sets both product weights to the
pair's reaction weight, and removes that reaction weight from each parent
(`BinaryCollisionUtils::remove_weight_from_colliding_particle` — its body
is not among the repository files available here; modelled from the spec:
the weight is reduced by the reaction weight and, per spec §3's
"destroyed by … explicit deletion (e.g. weight below threshold)", a parent
whose weight is exhausted is invalidated).  The scatter stage shifts the
product velocities into the center-of-momentum frame computed from the
rest masses, applies the per-process modification (ELASTIC: an external
randomized rotation of the first velocity with the second set to cancel
the total momentum; BACK: both velocities reversed; CHARGE_EXCHANGE with
near-equal masses: the two velocities swapped, unequal masses aborting),
and shifts back to the lab frame. -/

/-- The scattering processes the DSMC scatter stage implements. -/
inductive ScatterProcess
  | elastic
  | back
  | chargeExchange
deriving DecidableEq, Repr

/-- Weight and validity of one colliding parent after the reaction weight
is removed: the weight drops by the reaction weight, and an exhausted
parent is invalidated. -/
def removeWeight (w : ℚ) (valid : Bool) (wr : ℚ) : ℚ × Bool :=
  (w - wr, if w - wr ≤ 0 then false else valid)

/-- Result of the split stage for one masked pair. -/
structure SplitResult where
  parent1 : ℚ × Bool
  parent2 : ℚ × Bool
  productWeight1 : ℚ
  productWeight2 : ℚ
deriving DecidableEq, Repr

/-- Split stage for one masked pair: both products are created with the
pair's reaction weight `wr`, which is removed from each parent. -/
def splitPair (w1 w2 : ℚ) (valid1 valid2 : Bool) (wr : ℚ) : SplitResult :=
  { parent1 := removeWeight w1 valid1 wr
    parent2 := removeWeight w2 valid2 wr
    productWeight1 := wr
    productWeight2 := wr }

/-- Scatter stage for one masked pair: the product velocities `u1`, `u2`
(copies of the parents) are shifted into the center-of-momentum frame
`uCOM = (m1·u1 + m2·u2)/(m1 + m2)`, modified per process — `elastic`
replaces the first by the externally randomized rotation `rot` of it and
sets the second to `-(m1/m2)` times the first so the total momentum in
that frame stays zero; `back` reverses both; `chargeExchange` swaps the
two when the masses differ by less than `1e-28` and aborts (`none`)
otherwise — and shifted back to the lab frame. -/
def scatterPair (pt : ScatterProcess) (m1 m2 : ℚ) (u1 u2 : Vec3)
    (rot : Vec3 → Vec3) : Option (Vec3 × Vec3) :=
  let uCOM := Vec3.smul (1 / (m1 + m2)) ((Vec3.smul m1 u1).add (Vec3.smul m2 u2))
  let v1 := u1.sub uCOM
  let v2 := u2.sub uCOM
  match pt with
  | .elastic =>
      let v1r := rot v1
      let v2r := Vec3.smul (-(m1 / m2)) v1r
      some (v1r.add uCOM, v2r.add uCOM)
  | .back =>
      some ((Vec3.smul (-1) v1).add uCOM, (Vec3.smul (-1) v2).add uCOM)
  | .chargeExchange =>
      if |m1 - m2| < 1 / 10 ^ 28 then some (v2.add uCOM, v1.add uCOM)
      else none

end WarpX

/-- C8: for every masked collision pair, the split stage gives each of the
two product particles exactly the pair's reaction weight, and removes
exactly that weight from the corresponding parent, so for each species the
parent weight plus the product weight equals the parent's weight before
the split. -/
theorem C8_split_conserves_species_weight (w1 w2 : ℚ) (valid1 valid2 : Bool)
    (wr : ℚ) :
    (WarpX.splitPair w1 w2 valid1 valid2 wr).productWeight1 = wr
      ∧ (WarpX.splitPair w1 w2 valid1 valid2 wr).productWeight2 = wr
      ∧ (WarpX.splitPair w1 w2 valid1 valid2 wr).parent1.1
          + (WarpX.splitPair w1 w2 valid1 valid2 wr).productWeight1 = w1
      ∧ (WarpX.splitPair w1 w2 valid1 valid2 wr).parent2.1
          + (WarpX.splitPair w1 w2 valid1 valid2 wr).productWeight2 = w2 := by
  refine ⟨rfl, rfl, ?_, ?_⟩
  · show w1 - wr + wr = w1
    ring
  · show w2 - wr + wr = w2
    ring

/-- C9: for every pair scattered as ELASTIC or BACK with positive masses,
and as CHARGE_EXCHANGE with equal masses, the scatter stage succeeds and
leaves the pair's total momentum `m1·u1 + m2·u2` exactly unchanged, for
every externally randomized rotation. -/
theorem C9_scatter_conserves_total_momentum (pt : WarpX.ScatterProcess)
    (m1 m2 : ℚ) (u1 u2 : WarpX.Vec3) (rot : WarpX.Vec3 → WarpX.Vec3)
    (hm1 : 0 < m1) (hm2 : 0 < m2)
    (hce : pt = WarpX.ScatterProcess.chargeExchange → m1 = m2) :
    ∃ v1 v2 : WarpX.Vec3,
      WarpX.scatterPair pt m1 m2 u1 u2 rot = some (v1, v2)
        ∧ (WarpX.Vec3.smul m1 v1).add (WarpX.Vec3.smul m2 v2)
          = (WarpX.Vec3.smul m1 u1).add (WarpX.Vec3.smul m2 u2) := by
  have hsum : m1 + m2 ≠ 0 := by positivity
  have hm2ne : m2 ≠ 0 := ne_of_gt hm2
  obtain ⟨ax, ay, az⟩ := u1
  obtain ⟨bx, by', bz⟩ := u2
  cases pt with
  | elastic =>
      refine ⟨_, _, rfl, ?_⟩
      obtain ⟨rx, ry, rz⟩ :=
        rot ((WarpX.Vec3.mk ax ay az).sub
          (WarpX.Vec3.smul (1 / (m1 + m2))
            ((WarpX.Vec3.smul m1 ⟨ax, ay, az⟩).add (WarpX.Vec3.smul m2 ⟨bx, by', bz⟩))))
      simp only [WarpX.scatterPair, WarpX.Vec3.add, WarpX.Vec3.sub, WarpX.Vec3.smul,
        WarpX.Vec3.mk.injEq]
      refine ⟨?_, ?_, ?_⟩
      all_goals field_simp; ring
  | back =>
      refine ⟨_, _, rfl, ?_⟩
      simp only [WarpX.scatterPair, WarpX.Vec3.add, WarpX.Vec3.sub, WarpX.Vec3.smul,
        WarpX.Vec3.mk.injEq]
      refine ⟨?_, ?_, ?_⟩
      all_goals field_simp; ring
  | chargeExchange =>
      have hmm : m1 = m2 := hce rfl
      have hlt : |m1 - m2| < 1 / 10 ^ 28 := by
        rw [hmm, sub_self, abs_zero]
        positivity
      simp only [WarpX.scatterPair, if_pos hlt]
      refine ⟨_, _, rfl, ?_⟩
      simp only [WarpX.Vec3.add, WarpX.Vec3.sub, WarpX.Vec3.smul, WarpX.Vec3.mk.injEq]
      refine ⟨?_, ?_, ?_⟩
      all_goals
        rw [hmm]
        field_simp
        ring
  
/-- Witness for C9: a BACK scatter of momenta `(1,0,0)` and `(0,1,0)`
with masses 1 and 2 and the identity in place of the external rotation. -/
theorem C9_scatter_conserves_total_momentum_witness :
    ∃ v1 v2 : WarpX.Vec3,
      WarpX.scatterPair WarpX.ScatterProcess.back 1 2 ⟨1, 0, 0⟩ ⟨0, 1, 0⟩ id = some (v1, v2)
        ∧ (WarpX.Vec3.smul 1 v1).add (WarpX.Vec3.smul 2 v2)
          = (WarpX.Vec3.smul 1 ⟨1, 0, 0⟩).add (WarpX.Vec3.smul 2 ⟨0, 1, 0⟩) :=
  C9_scatter_conserves_total_momentum WarpX.ScatterProcess.back 1 2 ⟨1, 0, 0⟩ ⟨0, 1, 0⟩ id
    (by norm_num) (by norm_num) (fun h => nomatch h)
